import Mathlib

/-!
Verification of the detection-aggregation-to-overlay pipeline of the
celebrityfashionai repository.  Each Python function of the core is given a
shallow embedding: pure numeric code becomes functions over `ℤ`/`ℚ`, Python
dicts flowing between pipeline stages become association lists of
`String × PyVal` (so that missing-key errors are expressible), and image
decoding becomes an explicit environment `String → Option …`.
-/

namespace CelebFashion

/-- An axis-aligned box `[x1, y1, x2, y2]`, as used throughout the source. -/
structure Box where
  x1 : ℤ
  y1 : ℤ
  x2 : ℤ
  y2 : ℤ
  deriving DecidableEq, Repr

/-- Intersection-over-Union, a shallow embedding of `_iou` in
`src/detection/item_tracker.py`.  The Python floats are modelled exactly by
rationals. -/
def iou (box1 box2 : Box) : ℚ :=
  let xA := max box1.x1 box2.x1
  let yA := max box1.y1 box2.y1
  let xB := min box1.x2 box2.x2
  let yB := min box1.y2 box2.y2
  let inter_area : ℤ := max 0 (xB - xA) * max 0 (yB - yA)
  if inter_area = 0 then 0
  else
    let box1_area : ℤ := (box1.x2 - box1.x1) * (box1.y2 - box1.y1)
    let box2_area : ℤ := (box2.x2 - box2.x1) * (box2.y2 - box2.y1)
    (inter_area : ℚ) / ((box1_area + box2_area - inter_area : ℤ) : ℚ)

/-- One detection, the dict schema produced by the object detector and read by
`track_items`: keys `"item"`, `"frame"`, `"confidence"`, `"bbox"`.  Frame
paths are modelled as strings. -/
structure Detection where
  item : String
  frame : String
  confidence : ℚ
  bbox : Box
  deriving DecidableEq, Repr

/-- Values stored in the heterogeneous per-stage dicts. -/
inductive PyVal
  | str (s : String)
  | rat (q : ℚ)
  | int (n : ℤ)
  | intList (l : List ℤ)
  deriving DecidableEq, Repr

/-- A Python dict with string keys, as an association list in insertion
order. -/
abbrev PyDict := List (String × PyVal)

/-- `d[k]` as an `Option` (a `none` models the Python `KeyError`). -/
def dictGet : PyDict → String → Option PyVal
  | [], _ => none
  | (k, v) :: rest, key => if k = key then some v else dictGet rest key

/-- Grouping of `track_items`: `grouped[det["item"]].append(det)` over a
`defaultdict` whose keys iterate in first-insertion order. -/
def groupByItem (dets : List Detection) : List (String × List Detection) :=
  dets.foldl
    (fun acc d =>
      if acc.any (fun p => p.1 = d.item) then
        acc.map (fun p => if p.1 = d.item then (p.1, p.2 ++ [d]) else p)
      else acc ++ [(d.item, [d])])
    []

/-- A cluster: the anchor (`cluster[0]`) together with the later members, so
that `cluster` in the source is `c.1 :: c.2`. -/
abbrev Cluster := Detection × List Detection

/-- The inner matching loop of `track_items`: the detection joins the first
cluster whose anchor's IOU with it reaches the threshold, else it starts a
new cluster at the end of the list. -/
def addToClusters (thr : ℚ) (cs : List Cluster) (d : Detection) : List Cluster :=
  match cs with
  | [] => [(d, [])]
  | c :: rest =>
    if thr ≤ iou d.bbox c.1.bbox then (c.1, c.2 ++ [d]) :: rest
    else c :: addToClusters thr rest d

/-- Greedy clustering of one class partition, in input order. -/
def clusterList (thr : ℚ) (dets : List Detection) : List Cluster :=
  dets.foldl (addToClusters thr) []

/-- `max(cluster, key=lambda d: d["confidence"])`: the first member of
maximal confidence wins ties, as Python's `max` does. -/
def bestOf (c : Cluster) : Detection :=
  c.2.foldl (fun acc d => if acc.confidence < d.confidence then d else acc) c.1

/-- The output dict built for one cluster by `track_items`. -/
def mkItem (name : String) (idx : ℕ) (c : Cluster) : PyDict :=
  let best := bestOf c
  [("id", .str (name ++ "_" ++ toString idx)),
   ("item", .str name),
   ("frame", .str best.frame),
   ("confidence", .rat best.confidence),
   ("bbox", .intList [best.bbox.x1, best.bbox.y1, best.bbox.x2, best.bbox.y2]),
   ("frames_seen", .int (1 + c.2.length))]

/-- Shallow embedding of `track_items` in `src/detection/item_tracker.py`
(default `iou_threshold` is `0.5`). -/
def track_items (detections : List Detection) (iou_threshold : ℚ) : List PyDict :=
  (groupByItem detections).flatMap
    (fun p => (clusterList iou_threshold p.2).enum.map
      (fun ic => mkItem p.1 ic.1 ic.2))

/-! ### Quality gate (`src/crops/quality_check.py`) -/

/-- Thresholds of `quality_check.py` (the black-pixel bound is named
`MAX_BLACK` here, for the source's maximal black-pixel fraction). -/
def MIN_WIDTH : ℕ := 64
def MIN_HEIGHT : ℕ := 64
def MIN_AREA : ℕ := 64 * 64
def BLUR_THRESHOLD : ℚ := 90.0
def MIN_CONTRAST_STD : ℚ := 15.0
def MAX_BLACK : ℚ := 0.6

/-- A decoded crop image, abstracted to its shape and the three quality
metrics (`_blur_score`, `_contrast_score`, `_black_ratio`) the gate reads
from its pixels. -/
structure QCImage where
  h : ℕ
  w : ℕ
  blur : ℚ
  contrast : ℚ
  black_ratio : ℚ
  deriving DecidableEq, Repr

/-- One item entering `filter_crops`; only its `crop_path` is read. -/
structure CropItem where
  item : String
  confidence : ℚ
  crop_path : String
  bbox : Box
  deriving DecidableEq, Repr

/-- The image environment: `cv2.imread` on a path, `none` on decode
failure. -/
abbrev ImgEnv := String → Option QCImage

/-- Outcome of the per-item check chain of `filter_crops`. -/
inductive Verdict
  | accepted (blur contrast black_ratio : ℚ)
  | rejected (reason : String)
  deriving DecidableEq, Repr

/-- The body of the `filter_crops` loop for one item: decode, then size,
blur, contrast and darkness checks, stopping at the first failure. -/
def checkItem (env : ImgEnv) (crop_path : String) : Verdict :=
  match env crop_path with
  | none => .rejected "unreadable_image"
  | some img =>
    let area := img.h * img.w
    if img.w < MIN_WIDTH ∨ img.h < MIN_HEIGHT ∨ area < MIN_AREA then
      .rejected "too_small"
    else if img.blur < BLUR_THRESHOLD then .rejected "too_blurry"
    else if img.contrast < MIN_CONTRAST_STD then .rejected "low_contrast"
    else if MAX_BLACK < img.black_ratio then .rejected "mostly_dark"
    else .accepted img.blur img.contrast img.black_ratio

/-- Shallow embedding of `filter_crops`: the loop appending each item to
exactly one of the `accepted` / `rejected` lists (a rejected item carries its
`reason`). -/
def filter_crops (env : ImgEnv) : List CropItem → List CropItem × List (CropItem × String)
  | [] => ([], [])
  | item :: rest =>
    let r := filter_crops env rest
    match checkItem env item.crop_path with
    | .accepted _ _ _ => (item :: r.1, r.2)
    | .rejected reason => (r.1, (item, reason) :: r.2)

/-! ### Price estimation (`src/enrichment/price_estimator.py`,
`src/config/settings.py`) -/

/-- One entry of the `BRAND_RULES` table. -/
structure BrandRule where
  luxury_range : String
  regular_range : String
  luxury_keywords : List String
  deriving DecidableEq, Repr

/-- The fallback `BRAND_RULES` table baked into `price_estimator.py` (no
`models/brand_rules.json` exists in the repository). -/
def BRAND_RULES : List (String × BrandRule) :=
  [("watch", ⟨"$15,000 – $300,000", "$500 – $5,000",
              ["rolex", "patek", "audemars", "richard mille"]⟩),
   ("shoe", ⟨"$1,000 – $10,000", "$150 – $800",
             ["louboutin", "gucci", "balenciaga"]⟩),
   ("necklace", ⟨"$5,000 – $250,000", "$200 – $3,000",
                 ["cartier", "tiffany", "bvlgari"]⟩),
   ("ring", ⟨"$8,000 – $500,000", "$300 – $4,000",
             ["cartier", "harry winston"]⟩),
   ("bracelet", ⟨"$3,000 – $120,000", "$150 – $2,500",
                 ["cartier", "van cleef"]⟩)]

/-- `BRAND_RULES.get(key)`. -/
def rulesGet (key : String) : Option BrandRule :=
  (BRAND_RULES.find? (fun p => p.1 = key)).map Prod.snd

/-- Python `str.lower()`: lower-case every character. -/
def pyLower (s : String) : String := String.mk (s.data.map Char.toLower)

/-- `PRICE_CONFIDENCE_MIN` of `settings.py`, at its default `"0.6"`. -/
def PRICE_CONFIDENCE_MIN : ℚ := 0.6

/-- `DEFAULT_PRICE_RANGE` of `settings.py`. -/
def DEFAULT_PRICE_RANGE : String := "$500 – $5,000"

/-- The record returned by `_estimate_price_for_item`. -/
structure PriceEstimate where
  price_range : String
  luxury : Bool
  reason : String
  deriving DecidableEq, Repr

/-- Shallow embedding of `_estimate_price_for_item`. -/
def estimatePriceForItem (item_type : String) (confidence : ℚ) : PriceEstimate :=
  match rulesGet (pyLower item_type) with
  | none =>
    { price_range := DEFAULT_PRICE_RANGE, luxury := false,
      reason := "no_rules_for_item" }
  | some rules =>
    let is_luxury : Bool := decide (PRICE_CONFIDENCE_MIN ≤ confidence)
    { price_range := if is_luxury then rules.luxury_range else rules.regular_range,
      luxury := is_luxury,
      reason := if is_luxury then "high_confidence_detection"
                else "low_confidence_detection" }

/-- Shallow embedding of `estimate_prices`: each quality-accepted item is
extended with the estimate's three fields, order-preserving. -/
def estimate_prices (quality_items : List CropItem) :
    List (CropItem × PriceEstimate) :=
  quality_items.map (fun item => (item, estimatePriceForItem item.item item.confidence))

/-! ### Cropper (`src/crops/cropper.py`) -/

/-- Python `int()` applied to a (here exact, rational) float: truncation
toward zero. -/
def pyInt (q : ℚ) : ℤ := if 0 ≤ q then ⌊q⌋ else ⌈q⌉

/-- Shallow embedding of `_expand_bbox`: grow by `padding_ratio` of the box
width/height on each side, clamp to `[0, img_width] × [0, img_height]`.
The default `padding_ratio` in the source is `0.15`. -/
def expand_bbox (bbox : Box) (img_width img_height : ℤ) (padding_ratio : ℚ) : Box :=
  let w := bbox.x2 - bbox.x1
  let h := bbox.y2 - bbox.y1
  let pad_w := pyInt ((w : ℚ) * padding_ratio)
  let pad_h := pyInt ((h : ℚ) * padding_ratio)
  { x1 := max 0 (bbox.x1 - pad_w),
    y1 := max 0 (bbox.y1 - pad_h),
    x2 := min img_width (bbox.x2 + pad_w),
    y2 := min img_height (bbox.y2 + pad_h) }

/-- `CROPS_DIR` of `config/paths.py`, relative to the repository root. -/
def CROPS_DIR : String := "data/crops"

/-- Split a character list at every occurrence of `sep`. -/
def splitOnChar (sep : Char) : List Char → List (List Char)
  | [] => [[]]
  | c :: cs =>
    match splitOnChar sep cs with
    | [] => [[]]
    | g :: gs => if c = sep then [] :: g :: gs else (c :: g) :: gs

/-- `pathlib.Path(...).stem` for an ordinary file path: the last `/`
component with its final extension removed. -/
def pathStem (p : String) : String :=
  let base := (splitOnChar '/' p.data).getLastD []
  let parts := splitOnChar '.' base
  if parts.length ≤ 1 then String.mk base
  else String.mk (List.intercalate ['.'] parts.dropLast)

/-- `f"\x7bidx:02d\x7d"` for the indices produced by `enumerate`. -/
def pad2 (n : ℕ) : String :=
  if n < 10 then "0" ++ toString n else toString n

/-- A frame-image environment for the cropper: `cv2.imread` on a frame path
yields `some (h, w)` (numpy shape order) or `none` on decode failure. -/
abbrev FrameEnv := String → Option (ℤ × ℤ)

/-- The loop body of `crop_items` for the item at `enumerate` index `idx`.
Dict reads are in source order; a missing key is the Python `KeyError`,
modelled as `Except.error key`; an unreadable frame or an empty crop is
skipped. -/
def cropOne (env : FrameEnv) (video_id : String) (idx : ℕ) (item : PyDict) :
    Except String (Option PyDict) :=
  match dictGet item "best_frame" with
  | none => .error "best_frame"
  | some framePathV =>
    match dictGet item "bbox" with
    | none => .error "bbox"
    | some bboxV =>
      match framePathV, bboxV with
      | .str frame_path, .intList [bx1, bx2, bx3, bx4] =>
        (match env frame_path with
        | none => .ok none
        | some hw =>
          let nb := expand_bbox ⟨bx1, bx2, bx3, bx4⟩ hw.2 hw.1 0.15
          if nb.x2 ≤ nb.x1 ∨ nb.y2 ≤ nb.y1 then .ok none
          else
            match dictGet item "item", dictGet item "confidence" with
            | some (.str item_name), some confV =>
              let crop_name := item_name ++ "_" ++ pad2 idx ++ "_" ++
                pathStem frame_path ++ ".jpg"
              let crop_path := CROPS_DIR ++ "/" ++ video_id ++ "/" ++ crop_name
              .ok (some
                [("item", .str item_name),
                 ("confidence", confV),
                 ("crop_path", .str crop_path),
                 ("bbox", .intList [nb.x1, nb.y1, nb.x2, nb.y2])])
            | some (.str _), none => .error "confidence"
            | some _, _ => .error "TypeError"
            | none, _ => .error "item")
      | _, _ => .error "TypeError"

/-- The `for idx, item in enumerate(tracked_items)` loop of `crop_items`. -/
def cropLoop (env : FrameEnv) (video_id : String) :
    ℕ → List PyDict → Except String (List PyDict)
  | _, [] => .ok []
  | idx, item :: rest => do
    let head ← cropOne env video_id idx item
    let tail ← cropLoop env video_id (idx + 1) rest
    match head with
    | none => .ok tail
    | some c => .ok (c :: tail)

/-- Shallow embedding of `crop_items`. -/
def crop_items (env : FrameEnv) (tracked_items : List PyDict) (video_id : String) :
    Except String (List PyDict) :=
  cropLoop env video_id 0 tracked_items

/-! ### Overlay scheduling (`src/video/overlay.py`) -/

/-- `ITEM_DISPLAY_SECONDS` of `overlay.py`. -/
def ITEM_DISPLAY_SECONDS : ℚ := 1.8

/-- The per-item schedule computed by the `render_overlay` loop:
`start_t = idx * ITEM_DISPLAY_SECONDS`, `end_t = start_t +
ITEM_DISPLAY_SECONDS` for `idx` from `enumerate(priced_items)`.  Only the
time extent is modelled; the drawn overlay frame is opaque pixel data. -/
def overlayWindows (priced_items : List (CropItem × PriceEstimate)) : List (ℚ × ℚ) :=
  priced_items.enum.map
    (fun p => ((p.1 : ℚ) * ITEM_DISPLAY_SECONDS,
               (p.1 : ℚ) * ITEM_DISPLAY_SECONDS + ITEM_DISPLAY_SECONDS))

/-! ## Quality-gate theorems -/

/-- Whether a verdict accepts. -/
def Verdict.isAccepted : Verdict → Bool
  | .accepted _ _ _ => true
  | .rejected _ => false

/-- The reason a verdict rejects with, if any. -/
def Verdict.reason : Verdict → Option String
  | .accepted _ _ _ => none
  | .rejected r => some r

theorem filter_crops_partition (env : ImgEnv) (items : List CropItem) :
    (filter_crops env items).1 =
      items.filter (fun i => (checkItem env i.crop_path).isAccepted) ∧
    (filter_crops env items).2 =
      items.filterMap
        (fun i => ((checkItem env i.crop_path).reason).map (fun r => (i, r))) := by
  induction items with
  | nil => exact ⟨rfl, rfl⟩
  | cons a rest ih =>
    simp only [filter_crops]
    cases h : checkItem env a.crop_path with
    | accepted b c k =>
      simp [h, Verdict.isAccepted, Verdict.reason, List.filter_cons,
        List.filterMap_cons, ih.1, ih.2]
    | rejected r =>
      simp [h, Verdict.isAccepted, Verdict.reason, List.filter_cons,
        List.filterMap_cons, ih.1, ih.2]

theorem filter_crops_length (env : ImgEnv) (items : List CropItem) :
    (filter_crops env items).1.length + (filter_crops env items).2.length =
      items.length := by
  induction items with
  | nil => rfl
  | cons a rest ih =>
    simp only [filter_crops]
    cases h : checkItem env a.crop_path <;>
      simpa [h, List.length_cons] using by omega

/-- C3.  `filter_crops` evaluates the checks in the fixed order unreadable →
too-small → too-blurry → low-contrast → mostly-dark, assigns the reason of
the first failing check only (in particular a crop that is both too small
and too dark is rejected `too_small`), and every input item lands in exactly
one of the accepted/rejected lists. -/
theorem claim3_quality_order_and_partition (env : ImgEnv) (items : List CropItem)
    (path : String) (img : QCImage) :
    ((filter_crops env items).1 =
        items.filter (fun i => (checkItem env i.crop_path).isAccepted) ∧
      (filter_crops env items).2 =
        items.filterMap
          (fun i => ((checkItem env i.crop_path).reason).map (fun r => (i, r))) ∧
      (filter_crops env items).1.length + (filter_crops env items).2.length =
        items.length) ∧
    (env path = none → checkItem env path = .rejected "unreadable_image") ∧
    (env path = some img →
      ((img.w < MIN_WIDTH ∨ img.h < MIN_HEIGHT ∨ img.h * img.w < MIN_AREA) →
        checkItem env path = .rejected "too_small") ∧
      (¬(img.w < MIN_WIDTH ∨ img.h < MIN_HEIGHT ∨ img.h * img.w < MIN_AREA) →
        img.blur < BLUR_THRESHOLD → checkItem env path = .rejected "too_blurry") ∧
      (¬(img.w < MIN_WIDTH ∨ img.h < MIN_HEIGHT ∨ img.h * img.w < MIN_AREA) →
        ¬img.blur < BLUR_THRESHOLD → img.contrast < MIN_CONTRAST_STD →
        checkItem env path = .rejected "low_contrast") ∧
      (¬(img.w < MIN_WIDTH ∨ img.h < MIN_HEIGHT ∨ img.h * img.w < MIN_AREA) →
        ¬img.blur < BLUR_THRESHOLD → ¬img.contrast < MIN_CONTRAST_STD →
        MAX_BLACK < img.black_ratio →
        checkItem env path = .rejected "mostly_dark") ∧
      (¬(img.w < MIN_WIDTH ∨ img.h < MIN_HEIGHT ∨ img.h * img.w < MIN_AREA) →
        ¬img.blur < BLUR_THRESHOLD → ¬img.contrast < MIN_CONTRAST_STD →
        ¬MAX_BLACK < img.black_ratio →
        checkItem env path = .accepted img.blur img.contrast img.black_ratio) ∧
      ((img.w < MIN_WIDTH ∨ img.h < MIN_HEIGHT ∨ img.h * img.w < MIN_AREA) →
        MAX_BLACK < img.black_ratio →
        checkItem env path = .rejected "too_small")) := by
  refine ⟨⟨(filter_crops_partition env items).1, (filter_crops_partition env items).2,
    filter_crops_length env items⟩, ?_, ?_⟩
  · intro h
    simp [checkItem, h]
  · intro h
    refine ⟨fun hs => ?_, fun hs hb => ?_, fun hs hb hcn => ?_,
      fun hs hb hcn hd => ?_, fun hs hb hcn hd => ?_, fun hs hd => ?_⟩ <;>
      simp only [checkItem, h]
    · rw [if_pos hs]
    · rw [if_neg hs, if_pos hb]
    · rw [if_neg hs, if_neg hb, if_pos hcn]
    · rw [if_neg hs, if_neg hb, if_neg hcn, if_pos hd]
    · rw [if_neg hs, if_neg hb, if_neg hcn, if_neg hd]
    · rw [if_pos hs]

theorem claim3_witness :
    ((fun _ => some ⟨10, 10, 0, 0, 1⟩ : ImgEnv) "p" =
        some (⟨10, 10, 0, 0, 1⟩ : QCImage)) ∧
    ((10 : ℕ) < MIN_WIDTH ∨ (10 : ℕ) < MIN_HEIGHT ∨ (10 : ℕ) * 10 < MIN_AREA) ∧
    MAX_BLACK < (1 : ℚ) ∧
    checkItem (fun _ => some ⟨10, 10, 0, 0, 1⟩) "p" = .rejected "too_small" := by
  refine ⟨rfl, ?_, ?_, ?_⟩
  · norm_num [MIN_WIDTH]
  · norm_num [MAX_BLACK]
  · exact ((claim3_quality_order_and_partition (fun _ => some ⟨10, 10, 0, 0, 1⟩)
      [] "p" ⟨10, 10, 0, 0, 1⟩).2.2 rfl).2.2.2.2.2
      (by norm_num [MIN_WIDTH]) (by norm_num [MAX_BLACK])

/-- C4.  An item whose crop image fails to decode is rejected with reason
`unreadable_image`; no later check is consulted (the result does not depend
on any image metric) and the rest of the batch is still processed.  In this
embedding `filter_crops` is a total function, so no exception can escape to
the caller. -/
theorem claim4_unreadable_recovered (env : ImgEnv) (item : CropItem)
    (rest : List CropItem) (h : env item.crop_path = none) :
    checkItem env item.crop_path = .rejected "unreadable_image" ∧
    filter_crops env (item :: rest) =
      ((filter_crops env rest).1,
       (item, "unreadable_image") :: (filter_crops env rest).2) := by
  have hc : checkItem env item.crop_path = .rejected "unreadable_image" := by
    simp [checkItem, h]
  exact ⟨hc, by simp [filter_crops, hc]⟩

theorem claim4_witness :
    ((fun _ => none : ImgEnv) "q" = none) ∧
    filter_crops (fun _ => none) [⟨"watch", 0.9, "q", ⟨0, 0, 1, 1⟩⟩] =
      ([], [(⟨"watch", 0.9, "q", ⟨0, 0, 1, 1⟩⟩, "unreadable_image")]) := by
  refine ⟨rfl, ?_⟩
  have := (claim4_unreadable_recovered (fun _ => none)
    ⟨"watch", 0.9, "q", ⟨0, 0, 1, 1⟩⟩ [] rfl).2
  simpa [filter_crops] using this

/-! ## Price-estimation theorems -/

/-- C5.  An item whose (case-insensitively looked-up) category has a rule is
luxury iff its confidence is at least the threshold (default `0.6`), getting
that rule's luxury range with reason `high_confidence_detection` when luxury
and the regular range with `low_confidence_detection` otherwise; a category
without a rule gets the fixed default range, `luxury = false` and reason
`no_rules_for_item`.  Concretely: `"watch"` at `0.75` is luxury with the
watch luxury range, `"watch"` at `0.3` is not, and `"hat"` falls back to the
default; `estimate_prices` maps every input item to exactly one estimate,
order-preserving. -/
theorem claim5_price_rules (cat : String) (conf : ℚ) (items : List CropItem) :
    (∀ rule, rulesGet (pyLower cat) = some rule →
      estimatePriceForItem cat conf =
        ⟨if PRICE_CONFIDENCE_MIN ≤ conf then rule.luxury_range
            else rule.regular_range,
          decide (PRICE_CONFIDENCE_MIN ≤ conf),
          if PRICE_CONFIDENCE_MIN ≤ conf then "high_confidence_detection"
            else "low_confidence_detection"⟩) ∧
    (rulesGet (pyLower cat) = none →
      estimatePriceForItem cat conf =
        ⟨DEFAULT_PRICE_RANGE, false, "no_rules_for_item"⟩) ∧
    estimatePriceForItem "watch" 0.75 =
      ⟨"$15,000 – $300,000", true, "high_confidence_detection"⟩ ∧
    estimatePriceForItem "Watch" 0.75 =
      ⟨"$15,000 – $300,000", true, "high_confidence_detection"⟩ ∧
    estimatePriceForItem "watch" 0.3 =
      ⟨"$500 – $5,000", false, "low_confidence_detection"⟩ ∧
    estimatePriceForItem "hat" 0.9 =
      ⟨DEFAULT_PRICE_RANGE, false, "no_rules_for_item"⟩ ∧
    (estimate_prices items).map Prod.fst = items ∧
    (estimate_prices items).map Prod.snd =
      items.map (fun i => estimatePriceForItem i.item i.confidence) := by
  refine ⟨fun rule hr => ?_, fun hr => ?_, ?_, ?_, ?_, ?_, ?_, ?_⟩
  · simp only [estimatePriceForItem, hr]
    by_cases hc : PRICE_CONFIDENCE_MIN ≤ conf <;> simp [hc]
  · simp only [estimatePriceForItem, hr]
  · have hr : rulesGet (pyLower "watch") =
        some ⟨"$15,000 – $300,000", "$500 – $5,000",
          ["rolex", "patek", "audemars", "richard mille"]⟩ := by decide
    simp only [estimatePriceForItem, hr]
    norm_num [PRICE_CONFIDENCE_MIN]
  · have hr : rulesGet (pyLower "Watch") =
        some ⟨"$15,000 – $300,000", "$500 – $5,000",
          ["rolex", "patek", "audemars", "richard mille"]⟩ := by decide
    simp only [estimatePriceForItem, hr]
    norm_num [PRICE_CONFIDENCE_MIN]
  · have hr : rulesGet (pyLower "watch") =
        some ⟨"$15,000 – $300,000", "$500 – $5,000",
          ["rolex", "patek", "audemars", "richard mille"]⟩ := by decide
    simp only [estimatePriceForItem, hr]
    norm_num [PRICE_CONFIDENCE_MIN]
  · have hr : rulesGet (pyLower "hat") = none := by decide
    simp only [estimatePriceForItem, hr]
  · simp [estimate_prices, Function.comp_def]
  · simp [estimate_prices, Function.comp_def]

theorem claim5_witness :
    rulesGet (pyLower "necklace") =
      some ⟨"$5,000 – $250,000", "$200 – $3,000",
        ["cartier", "tiffany", "bvlgari"]⟩ ∧
    estimatePriceForItem "necklace" 0.8 =
      ⟨"$5,000 – $250,000", true, "high_confidence_detection"⟩ := by
  refine ⟨by decide, ?_⟩
  have h := (claim5_price_rules "necklace" 0.8 []).1
    ⟨"$5,000 – $250,000", "$200 – $3,000", ["cartier", "tiffany", "bvlgari"]⟩
    (by decide)
  rw [h]
  norm_num [PRICE_CONFIDENCE_MIN]

/-! ## Overlay-scheduling theorems -/

/-- C6.  The renderer schedules item `i` (0-indexed) on
`[i·D, (i+1)·D)` with `D = ITEM_DISPLAY_SECONDS = 1.8`; windows of distinct
items are disjoint and together the windows cover exactly `[0, N·D)`. -/
theorem claim6_schedule (items : List (CropItem × PriceEstimate)) :
    (overlayWindows items).length = items.length ∧
    (∀ i (h : i < (overlayWindows items).length),
      (overlayWindows items).get ⟨i, h⟩ =
        ((i : ℚ) * ITEM_DISPLAY_SECONDS, ((i : ℚ) + 1) * ITEM_DISPLAY_SECONDS)) ∧
    (∀ i j : ℕ, i ≠ j →
      Disjoint
        (Set.Ico ((i : ℚ) * ITEM_DISPLAY_SECONDS)
          (((i : ℚ) + 1) * ITEM_DISPLAY_SECONDS))
        (Set.Ico ((j : ℚ) * ITEM_DISPLAY_SECONDS)
          (((j : ℚ) + 1) * ITEM_DISPLAY_SECONDS))) ∧
    (⋃ i ∈ Finset.range items.length,
        Set.Ico ((i : ℚ) * ITEM_DISPLAY_SECONDS)
          (((i : ℚ) + 1) * ITEM_DISPLAY_SECONDS)) =
      Set.Ico 0 ((items.length : ℚ) * ITEM_DISPLAY_SECONDS) := by
  have hD : (0 : ℚ) < ITEM_DISPLAY_SECONDS := by norm_num [ITEM_DISPLAY_SECONDS]
  refine ⟨by simp [overlayWindows], fun i h => ?_, fun i j hij => ?_, ?_⟩
  · simp only [overlayWindows, List.get_eq_getElem, List.getElem_map,
      List.getElem_enum]
    rw [Prod.mk.injEq]
    exact ⟨rfl, by ring⟩
  · have key : ∀ a b : ℕ, a < b →
        Disjoint
          (Set.Ico ((a : ℚ) * ITEM_DISPLAY_SECONDS)
            (((a : ℚ) + 1) * ITEM_DISPLAY_SECONDS))
          (Set.Ico ((b : ℚ) * ITEM_DISPLAY_SECONDS)
            (((b : ℚ) + 1) * ITEM_DISPLAY_SECONDS)) := by
      intro a b hab
      rw [Set.Ico_disjoint_Ico]
      have h1 : ((a : ℚ) + 1) ≤ (b : ℚ) := by exact_mod_cast hab
      calc min (((a : ℚ) + 1) * ITEM_DISPLAY_SECONDS)
            (((b : ℚ) + 1) * ITEM_DISPLAY_SECONDS)
          ≤ ((a : ℚ) + 1) * ITEM_DISPLAY_SECONDS := min_le_left _ _
        _ ≤ (b : ℚ) * ITEM_DISPLAY_SECONDS := by
            exact mul_le_mul_of_nonneg_right h1 hD.le
        _ ≤ max ((a : ℚ) * ITEM_DISPLAY_SECONDS)
            ((b : ℚ) * ITEM_DISPLAY_SECONDS) := le_max_right _ _
    rcases hij.lt_or_lt with h | h
    · exact key i j h
    · exact (key j i h).symm
  · induction items.length with
    | zero => simp
    | succ n ih =>
      rw [Finset.range_succ, Finset.set_biUnion_insert, ih, Set.union_comm,
        Set.Ico_union_Ico_eq_Ico]
      · norm_num [add_mul]
      · positivity
      · nlinarith

theorem claim6_witness :
    (0 : ℕ) ≠ 1 ∧
    Disjoint
      (Set.Ico ((0 : ℚ) * ITEM_DISPLAY_SECONDS)
        (((0 : ℚ) + 1) * ITEM_DISPLAY_SECONDS))
      (Set.Ico ((1 : ℚ) * ITEM_DISPLAY_SECONDS)
        (((1 : ℚ) + 1) * ITEM_DISPLAY_SECONDS)) := by
  refine ⟨by decide, ?_⟩
  exact (claim6_schedule []).2.2.1 0 1 (by decide)

/-! ## Geometry theorems -/

/-- `box1_area` of `_iou`. -/
def boxArea (A : Box) : ℤ := (A.x2 - A.x1) * (A.y2 - A.y1)

/-- `inter_area` of `_iou`. -/
def interArea (A B : Box) : ℤ :=
  max 0 (min A.x2 B.x2 - max A.x1 B.x1) * max 0 (min A.y2 B.y2 - max A.y1 B.y1)

theorem iou_eq (A B : Box) :
    iou A B = if interArea A B = 0 then 0
      else (interArea A B : ℚ) /
        ((boxArea A + boxArea B - interArea A B : ℤ) : ℚ) := rfl

theorem interArea_comm (A B : Box) : interArea A B = interArea B A := by
  unfold interArea
  rw [min_comm A.x2 B.x2, min_comm A.y2 B.y2, max_comm A.x1 B.x1,
    max_comm A.y1 B.y1]

theorem iou_comm (A B : Box) : iou A B = iou B A := by
  rw [iou_eq, iou_eq, interArea_comm, add_comm (boxArea A)]

theorem interArea_nonneg (A B : Box) : 0 ≤ interArea A B :=
  mul_nonneg (le_max_left 0 _) (le_max_left 0 _)

theorem interArea_le_left (A B : Box) (hx : A.x1 ≤ A.x2) (hy : A.y1 ≤ A.y2) :
    interArea A B ≤ boxArea A := by
  unfold interArea boxArea
  apply mul_le_mul
  · exact max_le (by linarith)
      (by have := min_le_left A.x2 B.x2; have := le_max_left A.x1 B.x1; linarith)
  · exact max_le (by linarith)
      (by have := min_le_left A.y2 B.y2; have := le_max_left A.y1 B.y1; linarith)
  · exact le_max_left 0 _
  · linarith

theorem iou_denom_pos (A B : Box) (hAx : A.x1 ≤ A.x2) (hAy : A.y1 ≤ A.y2)
    (hBx : B.x1 ≤ B.x2) (hBy : B.y1 ≤ B.y2) (hne : interArea A B ≠ 0) :
    0 < boxArea A + boxArea B - interArea A B := by
  have hi : 0 < interArea A B := lt_of_le_of_ne (interArea_nonneg A B) (Ne.symm hne)
  have h1 : interArea A B ≤ boxArea A := interArea_le_left A B hAx hAy
  have h2 : interArea A B ≤ boxArea B := by
    rw [interArea_comm]; exact interArea_le_left B A hBx hBy
  linarith

/-- C7.  `_iou` is symmetric, always lies in `[0, 1]`, equals `1` on any
box of positive area compared with itself, vanishes when the boxes do not
overlap or when the union area is zero, and the division is only taken when
the denominator (the union area) is strictly positive. -/
theorem claim7_iou_properties (A B : Box) (hAx : A.x1 ≤ A.x2) (hAy : A.y1 ≤ A.y2)
    (hBx : B.x1 ≤ B.x2) (hBy : B.y1 ≤ B.y2) :
    iou A B = iou B A ∧
    0 ≤ iou A B ∧
    iou A B ≤ 1 ∧
    (0 < boxArea A → iou A A = 1) ∧
    ((min A.x2 B.x2 ≤ max A.x1 B.x1 ∨ min A.y2 B.y2 ≤ max A.y1 B.y1) →
      iou A B = 0) ∧
    (boxArea A + boxArea B - interArea A B = 0 → iou A B = 0) ∧
    (interArea A B ≠ 0 → 0 < boxArea A + boxArea B - interArea A B) := by
  have h1 : interArea A B ≤ boxArea A := interArea_le_left A B hAx hAy
  have h2 : interArea A B ≤ boxArea B := by
    rw [interArea_comm]; exact interArea_le_left B A hBx hBy
  have hnn := interArea_nonneg A B
  refine ⟨iou_comm A B, ?_, ?_, ?_, ?_, ?_,
    iou_denom_pos A B hAx hAy hBx hBy⟩
  · rw [iou_eq]
    split
    · exact le_refl 0
    · rename_i hne
      have hd := iou_denom_pos A B hAx hAy hBx hBy hne
      apply div_nonneg
      · exact_mod_cast hnn
      · exact_mod_cast hd.le
  · rw [iou_eq]
    split
    · norm_num
    · rename_i hne
      have hd := iou_denom_pos A B hAx hAy hBx hBy hne
      rw [div_le_one (by exact_mod_cast hd)]
      have : interArea A B ≤ boxArea A + boxArea B - interArea A B := by linarith
      exact_mod_cast this
  · intro hpos
    have hself : interArea A A = boxArea A := by
      unfold interArea boxArea
      rw [min_self, min_self, max_self, max_self,
        max_eq_right (by linarith : (0 : ℤ) ≤ A.x2 - A.x1),
        max_eq_right (by linarith : (0 : ℤ) ≤ A.y2 - A.y1)]
    rw [iou_eq, hself]
    rw [if_neg (by omega)]
    have hA0 : ((boxArea A : ℚ)) ≠ 0 := by exact_mod_cast hpos.ne'
    rw [show boxArea A + boxArea A - boxArea A = boxArea A by ring]
    exact div_self hA0
  · intro hcase
    have hzero : interArea A B = 0 := by
      unfold interArea
      rcases hcase with hx | hy
      · rw [max_eq_left (by linarith : min A.x2 B.x2 - max A.x1 B.x1 ≤ 0), zero_mul]
      · rw [max_eq_left (by linarith : min A.y2 B.y2 - max A.y1 B.y1 ≤ 0), mul_zero]
    rw [iou_eq, if_pos hzero]
  · intro hunion
    have hA0 : 0 ≤ boxArea A := mul_nonneg (by linarith) (by linarith)
    have hB0 : 0 ≤ boxArea B := mul_nonneg (by linarith) (by linarith)
    have hzero : interArea A B = 0 := by linarith
    rw [iou_eq, if_pos hzero]

theorem claim7_witness :
    ((⟨0, 0, 2, 2⟩ : Box).x1 ≤ (⟨0, 0, 2, 2⟩ : Box).x2) ∧
    iou ⟨0, 0, 2, 2⟩ ⟨1, 1, 3, 3⟩ = iou ⟨1, 1, 3, 3⟩ ⟨0, 0, 2, 2⟩ ∧
    0 ≤ iou ⟨0, 0, 2, 2⟩ ⟨1, 1, 3, 3⟩ ∧
    iou ⟨0, 0, 2, 2⟩ ⟨1, 1, 3, 3⟩ ≤ 1 := by
  have h := claim7_iou_properties ⟨0, 0, 2, 2⟩ ⟨1, 1, 3, 3⟩
    (by decide) (by decide) (by decide) (by decide)
  exact ⟨by decide, h.1, h.2.1, h.2.2.1⟩

/-! ## Bbox-expansion theorems -/

theorem pyInt_nonneg (q : ℚ) (h : 0 ≤ q) : 0 ≤ pyInt q := by
  unfold pyInt
  rw [if_pos h]
  exact Int.floor_nonneg.mpr h

/-- C8 as amended.  Unconditionally the expanded box satisfies
`0 ≤ x1'`, `0 ≤ y1'`, `x2' ≤ W` and `y2' ≤ H`; and whenever the input box
lies within the image (`0 ≤ x1 ≤ x2 ≤ W`, `0 ≤ y1 ≤ y2 ≤ H`) and the
padding ratio is nonnegative, the output lies fully within
`[0, W] × [0, H]` and is ordered (`x1' ≤ x2'`, `y1' ≤ y2'`).  The original
claim's unconditional containment fails for out-of-bounds inputs (see the
counterexample). -/
theorem claim8_expand_clamp (b : Box) (W H : ℤ) (r : ℚ) :
    (0 ≤ (expand_bbox b W H r).x1 ∧ 0 ≤ (expand_bbox b W H r).y1 ∧
      (expand_bbox b W H r).x2 ≤ W ∧ (expand_bbox b W H r).y2 ≤ H) ∧
    (0 ≤ r → 0 ≤ b.x1 → b.x1 ≤ b.x2 → b.x2 ≤ W →
      0 ≤ b.y1 → b.y1 ≤ b.y2 → b.y2 ≤ H →
      ((expand_bbox b W H r).x1 ≤ W ∧ 0 ≤ (expand_bbox b W H r).x2 ∧
        (expand_bbox b W H r).y1 ≤ H ∧ 0 ≤ (expand_bbox b W H r).y2 ∧
        (expand_bbox b W H r).x1 ≤ (expand_bbox b W H r).x2 ∧
        (expand_bbox b W H r).y1 ≤ (expand_bbox b W H r).y2)) := by
  refine ⟨⟨le_max_left 0 _, le_max_left 0 _, min_le_left W _, min_le_left H _⟩,
    fun hr hx1 hx hxW hy1 hy hyH => ?_⟩
  have hpw : 0 ≤ pyInt ((b.x2 - b.x1 : ℤ) * r) :=
    pyInt_nonneg _ (mul_nonneg (by exact_mod_cast sub_nonneg.mpr hx) hr)
  have hph : 0 ≤ pyInt ((b.y2 - b.y1 : ℤ) * r) :=
    pyInt_nonneg _ (mul_nonneg (by exact_mod_cast sub_nonneg.mpr hy) hr)
  simp only [expand_bbox]
  refine ⟨?_, ?_, ?_, ?_, ?_, ?_⟩ <;> omega

theorem claim8_witness :
    (0 : ℚ) ≤ 0.15 ∧
    (expand_bbox ⟨10, 10, 50, 50⟩ 100 100 0.15).x1 ≤ 100 ∧
    (expand_bbox ⟨10, 10, 50, 50⟩ 100 100 0.15).x1 ≤
      (expand_bbox ⟨10, 10, 50, 50⟩ 100 100 0.15).x2 := by
  have h := (claim8_expand_clamp ⟨10, 10, 50, 50⟩ 100 100 0.15).2
    (by norm_num) (by decide) (by decide) (by decide)
    (by decide) (by decide) (by decide)
  exact ⟨by norm_num, h.1, h.2.2.2.2.1⟩

/-- Refutation of C8 as stated: for the (out-of-image) bbox
`[200, 0, 210, 10]` with image width and height `100` and the default
padding ratio `0.15`, the returned `x1` is `199 > 100`, so the returned box
does not lie within `[0, 100] × [0, 100]`. -/
theorem claim8_counterexample :
    ¬ ((expand_bbox ⟨200, 0, 210, 10⟩ 100 100 0.15).x1 ≤ 100) := by
  have hpad : pyInt (((210 : ℤ) - 200 : ℤ) * (0.15 : ℚ)) = 1 := by
    have hq : (((210 : ℤ) - 200 : ℤ) : ℚ) * (0.15 : ℚ) = 3 / 2 := by norm_num
    unfold pyInt
    rw [hq, if_pos (by norm_num)]
    rw [Int.floor_eq_iff]
    norm_num

  have hx1 : (expand_bbox ⟨200, 0, 210, 10⟩ 100 100 0.15).x1 = 199 := by
    simp only [expand_bbox, hpad]
    decide
  rw [hx1]
  decide

/-! ## Tracker theorems -/

/-- Read a tracked item's representative back as a singleton detection
(its class, frame, confidence, bbox). -/
def repDetection (d : PyDict) : Detection :=
  { item := match dictGet d "item" with | some (.str s) => s | _ => ""
  , frame := match dictGet d "frame" with | some (.str s) => s | _ => ""
  , confidence := match dictGet d "confidence" with | some (.rat q) => q | _ => 0
  , bbox := match dictGet d "bbox" with
            | some (.intList [a, b, c, e]) => ⟨a, b, c, e⟩
            | _ => ⟨0, 0, 0, 0⟩ }

/-- The representatives of a tracker output, as singleton detections. -/
def repsOf (out : List PyDict) : List Detection := out.map repDetection

theorem repDetection_mkItem (name : String) (idx : ℕ) (c : Cluster) :
    repDetection (mkItem name idx c) =
      ⟨name, (bestOf c).frame, (bestOf c).confidence, (bestOf c).bbox⟩ := rfl

theorem dictGet_mkItem_best_frame (name : String) (idx : ℕ) (c : Cluster) :
    dictGet (mkItem name idx c) "best_frame" = none := rfl

theorem dictGet_mkItem_frames_seen (name : String) (idx : ℕ) (c : Cluster) :
    dictGet (mkItem name idx c) "frames_seen" =
      some (.int (1 + c.2.length)) := rfl

/-- C1.  On the three `"watch"` detections of the spec's dedup example, at
the default threshold `0.5`, `track_items` returns exactly the two unique
items of the claim: the first with `frames_seen = 2`, confidence `0.9` and
bbox `[12, 11, 49, 52]`, the second with `frames_seen = 1`, confidence
`0.6` and bbox `[200, 200, 240, 240]`. -/
theorem claim1_dedup_example :
    track_items
      [⟨"watch", "f1", 0.7, ⟨10, 10, 50, 50⟩⟩,
       ⟨"watch", "f2", 0.9, ⟨12, 11, 49, 52⟩⟩,
       ⟨"watch", "f3", 0.6, ⟨200, 200, 240, 240⟩⟩] 0.5 =
    [[("id", .str "watch_0"), ("item", .str "watch"), ("frame", .str "f2"),
      ("confidence", .rat 0.9), ("bbox", .intList [12, 11, 49, 52]),
      ("frames_seen", .int 2)],
     [("id", .str "watch_1"), ("item", .str "watch"), ("frame", .str "f3"),
      ("confidence", .rat 0.6), ("bbox", .intList [200, 200, 240, 240]),
      ("frames_seen", .int 1)]] := by
  norm_num [track_items, groupByItem, clusterList, addToClusters, bestOf,
    mkItem, iou, List.enum, List.enumFrom, List.flatMap]
  constructor <;> rfl

/-- Refutation of C2 as stated: for the three `"watch"` detections below,
`track_items` at threshold `0.5` produces two unique items, whose
representatives are `[0,0,100,100]` at `0.9` and `[0,50,100,100]` at `0.5`;
re-running `track_items` on those representatives as singleton detections
merges them into a single cluster (their IOU is exactly `0.5`), so the set
of unique items is not preserved. -/
theorem claim2_counterexample :
    (track_items
      [⟨"watch", "f1", 0.5, ⟨0, 0, 100, 50⟩⟩,
       ⟨"watch", "f2", 0.5, ⟨0, 50, 100, 100⟩⟩,
       ⟨"watch", "f3", 0.9, ⟨0, 0, 100, 100⟩⟩] (1/2)).length = 2 ∧
    repsOf (track_items
      [⟨"watch", "f1", 0.5, ⟨0, 0, 100, 50⟩⟩,
       ⟨"watch", "f2", 0.5, ⟨0, 50, 100, 100⟩⟩,
       ⟨"watch", "f3", 0.9, ⟨0, 0, 100, 100⟩⟩] (1/2)) =
      [⟨"watch", "f3", 0.9, ⟨0, 0, 100, 100⟩⟩,
       ⟨"watch", "f2", 0.5, ⟨0, 50, 100, 100⟩⟩] ∧
    (track_items
      (repsOf (track_items
        [⟨"watch", "f1", 0.5, ⟨0, 0, 100, 50⟩⟩,
         ⟨"watch", "f2", 0.5, ⟨0, 50, 100, 100⟩⟩,
         ⟨"watch", "f3", 0.9, ⟨0, 0, 100, 100⟩⟩] (1/2))) (1/2)).length = 1 := by
  norm_num [track_items, groupByItem, clusterList, addToClusters, bestOf,
    iou, List.enum, List.enumFrom, List.flatMap, repsOf, repDetection_mkItem]

theorem groupByItem_inv (dets : List Detection) :
    (∀ p ∈ groupByItem dets, p.2 = dets.filter (fun d => d.item = p.1)) ∧
    (∀ d ∈ dets, (groupByItem dets).any (fun p => p.1 = d.item) = true) := by
  induction dets using List.reverseRecOn with
  | nil => exact ⟨by simp [groupByItem], by simp⟩
  | append_singleton ds d ih =>
    have hstep : groupByItem (ds ++ [d]) =
        (if (groupByItem ds).any (fun p => p.1 = d.item) then
          (groupByItem ds).map
            (fun p => if p.1 = d.item then (p.1, p.2 ++ [d]) else p)
        else groupByItem ds ++ [(d.item, [d])]) := by
      simp only [groupByItem, List.foldl_append, List.foldl_cons, List.foldl_nil]
    by_cases hany : (groupByItem ds).any (fun p => p.1 = d.item) = true
    · rw [hstep, if_pos hany]
      constructor
      · intro p hp
        obtain ⟨q, hq, rfl⟩ := List.mem_map.mp hp
        by_cases hqd : q.1 = d.item
        · simp only [if_pos hqd]
          rw [List.filter_append, ← ih.1 q hq]
          simp [hqd]
        · simp only [if_neg hqd]
          rw [List.filter_append, ← ih.1 q hq]
          have : ¬d.item = q.1 := fun h => hqd h.symm
          simp [this]
      · intro x hx
        rcases List.mem_append.mp hx with hx | hx
        · obtain ⟨q, hq, hqx⟩ := List.any_eq_true.mp (ih.2 x hx)
          refine List.any_eq_true.mpr ⟨_, List.mem_map_of_mem _ hq, ?_⟩
          by_cases hqd : q.1 = d.item <;> simp_all
        · obtain ⟨q, hq, hqd⟩ := List.any_eq_true.mp hany
          rw [List.mem_singleton.mp hx]
          refine List.any_eq_true.mpr ⟨_, List.mem_map_of_mem _ hq, ?_⟩
          by_cases h : q.1 = d.item <;> simp_all
    · rw [hstep, if_neg hany]
      have hnone : ∀ q ∈ groupByItem ds, ¬q.1 = d.item := by
        intro q hq hqd
        exact hany (List.any_eq_true.mpr ⟨q, hq, by simp [hqd]⟩)
      constructor
      · intro p hp
        rcases List.mem_append.mp hp with hp | hp
        · rw [List.filter_append, ← ih.1 p hp]
          have : ¬d.item = p.1 := fun h => hnone p hp h.symm
          simp [this]
        · rw [List.mem_singleton.mp hp]
          have hnil : ds.filter (fun x => x.item = d.item) = [] := by
            rw [List.filter_eq_nil_iff]
            intro a ha had
            have := ih.2 a ha
            obtain ⟨q, hq, hqa⟩ := List.any_eq_true.mp this
            exact hnone q hq (by simp at hqa had; rw [hqa, had])
          rw [List.filter_append, hnil]
          simp
      · intro x hx
        rcases List.mem_append.mp hx with hx | hx
        · obtain ⟨q, hq, hqx⟩ := List.any_eq_true.mp (ih.2 x hx)
          exact List.any_eq_true.mpr ⟨q, List.mem_append_left _ hq, hqx⟩
        · rw [List.mem_singleton.mp hx]
          refine List.any_eq_true.mpr ⟨(d.item, [d]), ?_, by simp⟩
          exact List.mem_append_right _ (List.mem_singleton.mpr rfl)

theorem addToClusters_all_below (thr : ℚ) (d : Detection) (es : List Detection)
    (h : ∀ e ∈ es, iou d.bbox e.bbox < thr) :
    addToClusters thr (es.map (fun e => (e, ([] : List Detection)))) d =
      (es ++ [d]).map (fun e => (e, [])) := by
  induction es with
  | nil => simp [addToClusters]
  | cons e es ih =>
    simp only [List.map_cons, addToClusters]
    rw [if_neg (not_le.mpr (h e (List.mem_cons_self e es)))]
    rw [ih (fun x hx => h x (List.mem_cons_of_mem e hx))]
    simp

theorem foldl_addToClusters_below (thr : ℚ) :
    ∀ (ds es : List Detection),
      (∀ x ∈ ds, ∀ e ∈ es, iou x.bbox e.bbox < thr) →
      ds.Pairwise (fun a b => iou b.bbox a.bbox < thr) →
      ds.foldl (addToClusters thr) (es.map (fun e => (e, []))) =
        (es ++ ds).map (fun e => (e, [])) := by
  intro ds
  induction ds with
  | nil => intro es _ _; simp
  | cons x ds ih =>
    intro es hcross hpair
    rw [List.foldl_cons,
      addToClusters_all_below thr x es
        (fun e he => hcross x (List.mem_cons_self x ds) e he)]
    rw [ih (es ++ [x]) ?_ (List.pairwise_cons.mp hpair).2]
    · simp
    · intro y hy e he
      rcases List.mem_append.mp he with he | he
      · exact hcross y (List.mem_cons_of_mem x hy) e he
      · rw [List.mem_singleton.mp he]
        exact (List.pairwise_cons.mp hpair).1 y hy

theorem clusterList_singletons (thr : ℚ) (ds : List Detection)
    (hpair : ds.Pairwise (fun a b => iou b.bbox a.bbox < thr)) :
    clusterList thr ds = ds.map (fun d => (d, [])) := by
  have := foldl_addToClusters_below thr ds [] (by simp) hpair
  simpa [clusterList] using this

theorem mem_track_items {dets : List Detection} {thr : ℚ} {o : PyDict}
    (h : o ∈ track_items dets thr) :
    ∃ p ∈ groupByItem dets, ∃ ic ∈ (clusterList thr p.2).enum,
      o = mkItem p.1 ic.1 ic.2 := by
  simp only [track_items, List.mem_flatMap, List.mem_map] at h
  obtain ⟨p, hp, ic, hic, rfl⟩ := h
  exact ⟨p, hp, ic, hic, rfl⟩

theorem snd_mem_of_mem_enum {α : Type} {l : List α} {x : ℕ × α}
    (h : x ∈ l.enum) : x.2 ∈ l := by
  have := List.mem_enum_iff_getElem?.mp h
  exact List.getElem?_mem this

/-- C2 as amended.  Whenever no two distinct same-class representatives
reach the IOU threshold, re-running `track_items` on them as singleton
detections keeps every representative isolated: each output cluster has
`frames_seen = 1`, each output's representative fields come from one of the
inputs, and every input survives as an output — the set of unique items is
preserved.  Without that proviso representatives of different clusters can
merge (see the counterexample). -/
theorem claim2_isolated_reps (reps : List Detection) (thr : ℚ)
    (hpair : reps.Pairwise
      (fun d₁ d₂ => d₁.item = d₂.item → iou d₁.bbox d₂.bbox < thr)) :
    (∀ o ∈ track_items reps thr, dictGet o "frames_seen" = some (.int 1)) ∧
    (∀ o ∈ track_items reps thr, ∃ d ∈ reps, repDetection o = d) ∧
    (∀ d ∈ reps, ∃ o ∈ track_items reps thr, repDetection o = d) := by
  have hinv := groupByItem_inv reps
  have hsing : ∀ p ∈ groupByItem reps,
      clusterList thr p.2 = p.2.map (fun d => (d, [])) := by
    intro p hp
    apply clusterList_singletons
    have hfilter := hinv.1 p hp
    have hpf : (reps.filter (fun d => d.item = p.1)).Pairwise
        (fun d₁ d₂ => d₁.item = d₂.item → iou d₁.bbox d₂.bbox < thr) :=
      hpair.sublist (List.filter_sublist _)
    rw [hfilter]
    refine List.Pairwise.imp_of_mem ?_ hpf
    intro a b ha hb hR
    have ha' := (List.mem_filter.mp ha).2
    have hb' := (List.mem_filter.mp hb).2
    simp only [decide_eq_true_eq] at ha' hb'
    have heq : a.item = b.item := by rw [ha', hb']
    rw [iou_comm]
    exact hR heq
  have hgrpmem : ∀ p ∈ groupByItem reps, ∀ d ∈ p.2, d ∈ reps ∧ d.item = p.1 := by
    intro p hp d hd
    rw [hinv.1 p hp] at hd
    have := List.mem_filter.mp hd
    exact ⟨this.1, by simpa using this.2⟩
  refine ⟨?_, ?_, ?_⟩
  · intro o ho
    obtain ⟨p, hp, ic, hic, rfl⟩ := mem_track_items ho
    rw [hsing p hp] at hic
    have hmem := snd_mem_of_mem_enum hic
    obtain ⟨d, _, hic2⟩ := List.mem_map.mp hmem
    rw [dictGet_mkItem_frames_seen, ← hic2]
    simp
  · intro o ho
    obtain ⟨p, hp, ic, hic, rfl⟩ := mem_track_items ho
    rw [hsing p hp] at hic
    have hmem := snd_mem_of_mem_enum hic
    obtain ⟨d, hd, hic2⟩ := List.mem_map.mp hmem
    obtain ⟨hdreps, hditem⟩ := hgrpmem p hp d hd
    refine ⟨d, hdreps, ?_⟩
    rw [repDetection_mkItem, ← hic2]
    show (⟨p.1, (bestOf (d, [])).frame, (bestOf (d, [])).confidence,
      (bestOf (d, [])).bbox⟩ : Detection) = d
    have hbd : bestOf (d, ([] : List Detection)) = d := rfl
    rw [hbd, ← hditem]
  · intro d hd
    obtain ⟨p, hp, hkey⟩ := List.any_eq_true.mp (hinv.2 d hd)
    simp only [decide_eq_true_eq] at hkey
    have hdmem : d ∈ p.2 := by
      rw [hinv.1 p hp]
      exact List.mem_filter.mpr ⟨hd, by simp [hkey]⟩
    have hclmem : (d, ([] : List Detection)) ∈ clusterList thr p.2 := by
      rw [hsing p hp]
      exact List.mem_map_of_mem _ hdmem
    obtain ⟨i, hi⟩ := List.getElem?_of_mem hclmem
    have henum : (i, (d, ([] : List Detection))) ∈ (clusterList thr p.2).enum :=
      List.mk_mem_enum_iff_getElem?.mpr hi
    refine ⟨mkItem p.1 i (d, []), ?_, ?_⟩
    · simp only [track_items, List.mem_flatMap]
      exact ⟨p, hp, List.mem_map.mpr ⟨(i, (d, [])), henum, rfl⟩⟩
    · rw [repDetection_mkItem]
      show (⟨p.1, (bestOf (d, [])).frame, (bestOf (d, [])).confidence,
        (bestOf (d, [])).bbox⟩ : Detection) = d
      have hbd : bestOf (d, ([] : List Detection)) = d := rfl
      rw [hbd, hkey]

theorem claim2_witness :
    ([⟨"watch", "f1", 0.9, ⟨0, 0, 10, 10⟩⟩,
      ⟨"watch", "f2", 0.8, ⟨100, 100, 110, 110⟩⟩] : List Detection).Pairwise
      (fun d₁ d₂ => d₁.item = d₂.item → iou d₁.bbox d₂.bbox < (1/2 : ℚ)) ∧
    (∃ o ∈ track_items [⟨"watch", "f1", 0.9, ⟨0, 0, 10, 10⟩⟩,
        ⟨"watch", "f2", 0.8, ⟨100, 100, 110, 110⟩⟩] (1/2),
      repDetection o = ⟨"watch", "f1", 0.9, ⟨0, 0, 10, 10⟩⟩) := by
  have hpair : ([⟨"watch", "f1", 0.9, ⟨0, 0, 10, 10⟩⟩,
      ⟨"watch", "f2", 0.8, ⟨100, 100, 110, 110⟩⟩] : List Detection).Pairwise
      (fun d₁ d₂ => d₁.item = d₂.item → iou d₁.bbox d₂.bbox < (1/2 : ℚ)) := by
    refine List.pairwise_cons.mpr ⟨?_, List.pairwise_singleton _ _⟩
    intro b hb _
    rw [List.mem_singleton.mp hb]
    norm_num [iou]
  exact ⟨hpair, (claim2_isolated_reps _ _ hpair).2.2 _
    (List.mem_cons_self _ _)⟩

/-! ## Tracker-to-cropper composition -/

/-- C10.  `track_items` stores the representative frame under the key
`"frame"`, while `crop_items` reads `"best_frame"`; hence feeding any
non-empty tracker output to the cropper raises a `KeyError` for
`"best_frame"` on the very first item. -/
theorem claim10_best_frame_missing (dets : List Detection) (thr : ℚ)
    (env : FrameEnv) (vid : String) (h : track_items dets thr ≠ []) :
    crop_items env (track_items dets thr) vid = .error "best_frame" := by
  obtain ⟨o, t, ht⟩ := List.exists_cons_of_ne_nil h
  have hmem : o ∈ track_items dets thr := by
    rw [ht]; exact List.mem_cons_self o t
  obtain ⟨p, _, ic, _, rfl⟩ := mem_track_items hmem
  rw [crop_items, ht]
  simp [cropLoop, cropOne, dictGet_mkItem_best_frame, Except.instMonad,
    Except.bind]

theorem claim10_witness :
    track_items [⟨"watch", "f1", 0.7, ⟨10, 10, 50, 50⟩⟩] (1/2) ≠ [] ∧
    crop_items (fun _ => none)
      (track_items [⟨"watch", "f1", 0.7, ⟨10, 10, 50, 50⟩⟩] (1/2)) "vid" =
      .error "best_frame" := by
  have hne : track_items [⟨"watch", "f1", 0.7, ⟨10, 10, 50, 50⟩⟩] (1/2) ≠ [] := by
    norm_num [track_items, groupByItem, clusterList, addToClusters,
      List.enum, List.enumFrom, List.flatMap]
  exact ⟨hne, claim10_best_frame_missing _ _ _ _ hne⟩

/-! ## Crop-filename theorems -/

theorem dictGet_cropdict_crop_path (cls : String) (cv pv bv : PyVal) :
    dictGet [("item", .str cls), ("confidence", cv), ("crop_path", pv),
      ("bbox", bv)] "crop_path" = some pv := rfl

theorem dictGet_cropdict_item (cls : String) (cv pv bv : PyVal) :
    dictGet [("item", .str cls), ("confidence", cv), ("crop_path", pv),
      ("bbox", bv)] "item" = some (.str cls) := rfl

theorem cropOne_ok_some (env : FrameEnv) (vid : String) (idx : ℕ)
    (item c : PyDict) (h : cropOne env vid idx item = .ok (some c)) :
    ∃ f b1 b2 b3 b4 hw cls confV,
      dictGet item "best_frame" = some (.str f) ∧
      dictGet item "bbox" = some (.intList [b1, b2, b3, b4]) ∧
      dictGet item "item" = some (.str cls) ∧
      dictGet item "confidence" = some confV ∧
      env f = some hw ∧
      c = [("item", .str cls), ("confidence", confV),
        ("crop_path", .str (CROPS_DIR ++ "/" ++ vid ++ "/" ++
          (cls ++ "_" ++ pad2 idx ++ "_" ++ pathStem f ++ ".jpg"))),
        ("bbox", .intList
          [(expand_bbox ⟨b1, b2, b3, b4⟩ hw.2 hw.1 0.15).x1,
           (expand_bbox ⟨b1, b2, b3, b4⟩ hw.2 hw.1 0.15).y1,
           (expand_bbox ⟨b1, b2, b3, b4⟩ hw.2 hw.1 0.15).x2,
           (expand_bbox ⟨b1, b2, b3, b4⟩ hw.2 hw.1 0.15).y2])] := by
  unfold cropOne at h
  split at h <;> try simp at h
  rename_i framePathV hbf
  split at h <;> try simp at h
  rename_i bboxV hbb
  split at h <;> try simp at h
  rename_i frame_path b1 b2 b3 b4
  split at h <;> try simp at h
  rename_i hw henv
  split at h <;> try simp at h
  rename_i hempty
  split at h <;> try simp at h
  rename_i cls confV hcls hconf
  exact ⟨frame_path, b1, b2, b3, b4, hw, cls, confV,
    hbf, hbb, hcls, hconf, henv, h.symm⟩

theorem cropLoop_filenames (env : FrameEnv) (vid : String) :
    ∀ (items : List PyDict) (n : ℕ) (out : List PyDict),
      cropLoop env vid n items = .ok out →
      ∀ c ∈ out, ∃ k item f cls,
        items[k]? = some item ∧
        dictGet item "best_frame" = some (.str f) ∧
        dictGet item "item" = some (.str cls) ∧
        dictGet c "item" = some (.str cls) ∧
        dictGet c "crop_path" = some (.str (CROPS_DIR ++ "/" ++ vid ++ "/" ++
          (cls ++ "_" ++ pad2 (n + k) ++ "_" ++ pathStem f ++ ".jpg"))) := by
  intro items
  induction items with
  | nil =>
    intro n out h c hc
    simp only [cropLoop] at h
    obtain rfl : ([] : List PyDict) = out := by simpa using h
    simp at hc
  | cons it rest ih =>
    intro n out h c hc
    rw [cropLoop] at h
    cases hov : cropOne env vid n it with
    | error e => rw [hov] at h; simp [Except.instMonad, Except.bind] at h
    | ok head =>
      rw [hov] at h
      cases hlv : cropLoop env vid (n + 1) rest with
      | error e =>
        rw [hlv] at h
        cases head <;> simp [Except.instMonad, Except.bind] at h
      | ok tail =>
        rw [hlv] at h
        cases head with
        | none =>
          simp only [Except.instMonad, Except.bind, Except.ok.injEq] at h
          subst h
          obtain ⟨k, item, f, cls, hk, hbf, hit, hcit, hcp⟩ :=
            ih (n + 1) tail hlv c hc
          refine ⟨k + 1, item, f, cls, ?_, hbf, hit, hcit, ?_⟩
          · simpa using hk
          · have : n + 1 + k = n + (k + 1) := by omega
            rwa [this] at hcp
        | some c0 =>
          simp only [Except.instMonad, Except.bind, Except.ok.injEq] at h
          subst h
          rcases List.mem_cons.mp hc with rfl | hc
          · obtain ⟨f, b1, b2, b3, b4, hw, cls, confV, hbf, _, hcls, _, _, hc0⟩ :=
              cropOne_ok_some env vid n it c hov
            refine ⟨0, it, f, cls, by simp, hbf, hcls, ?_, ?_⟩
            · rw [hc0]; exact dictGet_cropdict_item cls _ _ _
            · rw [hc0, Nat.add_zero]; exact dictGet_cropdict_crop_path cls _ _ _
          · obtain ⟨k, item, f, cls, hk, hbf, hit, hcit, hcp⟩ :=
              ih (n + 1) tail hlv c hc
            refine ⟨k + 1, item, f, cls, ?_, hbf, hit, hcit, ?_⟩
            · simpa using hk
            · have : n + 1 + k = n + (k + 1) := by omega
              rwa [this] at hcp

/-- C9 as amended.  The filename of each crop persisted by `crop_items`
encodes the item's class and the source frame's stem, but the two-digit
index it carries is the item's position in the whole tracked-items list
(the `enumerate` index), not its per-class cluster index (see the
counterexample, where the id says cluster `0` but the filename says
`01`). -/
theorem claim9_filenames (env : FrameEnv) (vid : String)
    (tracked out : List PyDict) (h : crop_items env tracked vid = .ok out) :
    ∀ c ∈ out, ∃ k item f cls,
      tracked[k]? = some item ∧
      dictGet item "best_frame" = some (.str f) ∧
      dictGet item "item" = some (.str cls) ∧
      dictGet c "item" = some (.str cls) ∧
      dictGet c "crop_path" = some (.str (CROPS_DIR ++ "/" ++ vid ++ "/" ++
        (cls ++ "_" ++ pad2 k ++ "_" ++ pathStem f ++ ".jpg"))) := by
  intro c hc
  obtain ⟨k, item, f, cls, hk, hbf, hit, hcit, hcp⟩ :=
    cropLoop_filenames env vid tracked 0 out h c hc
  exact ⟨k, item, f, cls, hk, hbf, hit, hcit, by rwa [Nat.zero_add] at hcp⟩

/-- The concrete tracked-item list (carrying the `"best_frame"` key that
`crop_items` reads) for the C9 counterexample: a `"watch"` of cluster index
0 and a `"shoe"` of cluster index 0. -/
def c9tracked : List PyDict :=
  [[("id", .str "watch_0"), ("item", .str "watch"),
    ("best_frame", .str "frames/a.jpg"), ("confidence", .rat 0.9),
    ("bbox", .intList [10, 10, 50, 50]), ("frames_seen", .int 1)],
   [("id", .str "shoe_0"), ("item", .str "shoe"),
    ("best_frame", .str "frames/a.jpg"), ("confidence", .rat 0.8),
    ("bbox", .intList [10, 10, 50, 50]), ("frames_seen", .int 1)]]

/-- Frame environment for the C9 counterexample: one readable 500 × 500
frame. -/
def c9env : FrameEnv :=
  fun p => if p = "frames/a.jpg" then some (500, 500) else none

theorem c9_expand :
    expand_bbox ⟨10, 10, 50, 50⟩ 500 500 0.15 = ⟨4, 4, 56, 56⟩ := by
  have hpad : pyInt ((((50 : ℤ) - 10 : ℤ) : ℚ) * 0.15) = 6 := by
    unfold pyInt
    rw [if_pos (by norm_num)]
    rw [show ((((50 : ℤ) - 10 : ℤ) : ℚ) * 0.15) = ((6 : ℤ) : ℚ) by norm_num]
    exact Int.floor_intCast 6
  simp only [expand_bbox, hpad]
  decide

theorem c9_crop_items_eval :
    crop_items c9env c9tracked "vid" = .ok
      [[("item", .str "watch"), ("confidence", .rat 0.9),
        ("crop_path", .str "data/crops/vid/watch_00_a.jpg"),
        ("bbox", .intList [4, 4, 56, 56])],
       [("item", .str "shoe"), ("confidence", .rat 0.8),
        ("crop_path", .str "data/crops/vid/shoe_01_a.jpg"),
        ("bbox", .intList [4, 4, 56, 56])]] := by
  have h0 : cropOne c9env "vid" 0
      [("id", .str "watch_0"), ("item", .str "watch"),
       ("best_frame", .str "frames/a.jpg"), ("confidence", .rat 0.9),
       ("bbox", .intList [10, 10, 50, 50]), ("frames_seen", .int 1)] =
      .ok (some [("item", .str "watch"), ("confidence", .rat 0.9),
        ("crop_path", .str "data/crops/vid/watch_00_a.jpg"),
        ("bbox", .intList [4, 4, 56, 56])]) := by
    have step : cropOne c9env "vid" 0
        [("id", .str "watch_0"), ("item", .str "watch"),
         ("best_frame", .str "frames/a.jpg"), ("confidence", .rat 0.9),
         ("bbox", .intList [10, 10, 50, 50]), ("frames_seen", .int 1)] =
        (if (expand_bbox ⟨10, 10, 50, 50⟩ 500 500 0.15).x2 ≤
              (expand_bbox ⟨10, 10, 50, 50⟩ 500 500 0.15).x1 ∨
            (expand_bbox ⟨10, 10, 50, 50⟩ 500 500 0.15).y2 ≤
              (expand_bbox ⟨10, 10, 50, 50⟩ 500 500 0.15).y1 then
          Except.ok none
        else .ok (some [("item", .str "watch"), ("confidence", .rat 0.9),
          ("crop_path", .str (CROPS_DIR ++ "/" ++ "vid" ++ "/" ++
            ("watch" ++ "_" ++ pad2 0 ++ "_" ++
              pathStem "frames/a.jpg" ++ ".jpg"))),
          ("bbox", .intList
            [(expand_bbox ⟨10, 10, 50, 50⟩ 500 500 0.15).x1,
             (expand_bbox ⟨10, 10, 50, 50⟩ 500 500 0.15).y1,
             (expand_bbox ⟨10, 10, 50, 50⟩ 500 500 0.15).x2,
             (expand_bbox ⟨10, 10, 50, 50⟩ 500 500 0.15).y2])])) := rfl
    rw [step, c9_expand, if_neg (by decide)]
    rfl
  have h1 : cropOne c9env "vid" 1
      [("id", .str "shoe_0"), ("item", .str "shoe"),
       ("best_frame", .str "frames/a.jpg"), ("confidence", .rat 0.8),
       ("bbox", .intList [10, 10, 50, 50]), ("frames_seen", .int 1)] =
      .ok (some [("item", .str "shoe"), ("confidence", .rat 0.8),
        ("crop_path", .str "data/crops/vid/shoe_01_a.jpg"),
        ("bbox", .intList [4, 4, 56, 56])]) := by
    have step : cropOne c9env "vid" 1
        [("id", .str "shoe_0"), ("item", .str "shoe"),
         ("best_frame", .str "frames/a.jpg"), ("confidence", .rat 0.8),
         ("bbox", .intList [10, 10, 50, 50]), ("frames_seen", .int 1)] =
        (if (expand_bbox ⟨10, 10, 50, 50⟩ 500 500 0.15).x2 ≤
              (expand_bbox ⟨10, 10, 50, 50⟩ 500 500 0.15).x1 ∨
            (expand_bbox ⟨10, 10, 50, 50⟩ 500 500 0.15).y2 ≤
              (expand_bbox ⟨10, 10, 50, 50⟩ 500 500 0.15).y1 then
          Except.ok none
        else .ok (some [("item", .str "shoe"), ("confidence", .rat 0.8),
          ("crop_path", .str (CROPS_DIR ++ "/" ++ "vid" ++ "/" ++
            ("shoe" ++ "_" ++ pad2 1 ++ "_" ++
              pathStem "frames/a.jpg" ++ ".jpg"))),
          ("bbox", .intList
            [(expand_bbox ⟨10, 10, 50, 50⟩ 500 500 0.15).x1,
             (expand_bbox ⟨10, 10, 50, 50⟩ 500 500 0.15).y1,
             (expand_bbox ⟨10, 10, 50, 50⟩ 500 500 0.15).x2,
             (expand_bbox ⟨10, 10, 50, 50⟩ 500 500 0.15).y2])])) := rfl
    rw [step, c9_expand, if_neg (by decide)]
    rfl
  show cropLoop c9env "vid" 0 c9tracked = _
  simp only [c9tracked, cropLoop, h0, h1, Except.instMonad, Except.bind]

/-- Refutation of C9 as stated: the second tracked item has id `"shoe_0"`
(per-class cluster index 0), but its persisted crop is named
`shoe_01_a.jpg` — the `01` is the global `enumerate` index, not the cluster
index `00` the claim requires. -/
theorem claim9_counterexample :
    dictGet (c9tracked.getD 1 []) "id" = some (.str "shoe_0") ∧
    crop_items c9env c9tracked "vid" = .ok
      [[("item", .str "watch"), ("confidence", .rat 0.9),
        ("crop_path", .str "data/crops/vid/watch_00_a.jpg"),
        ("bbox", .intList [4, 4, 56, 56])],
       [("item", .str "shoe"), ("confidence", .rat 0.8),
        ("crop_path", .str "data/crops/vid/shoe_01_a.jpg"),
        ("bbox", .intList [4, 4, 56, 56])]] ∧
    "data/crops/vid/shoe_01_a.jpg" ≠ "data/crops/vid/shoe_00_a.jpg" :=
  ⟨rfl, c9_crop_items_eval, by decide⟩

theorem claim9_witness :
    ∃ k item f cls,
      c9tracked[k]? = some item ∧
      dictGet item "best_frame" = some (.str f) ∧
      dictGet item "item" = some (.str cls) ∧
      dictGet [("item", PyVal.str "shoe"), ("confidence", .rat 0.8),
        ("crop_path", .str "data/crops/vid/shoe_01_a.jpg"),
        ("bbox", .intList [4, 4, 56, 56])] "item" = some (.str cls) ∧
      dictGet [("item", PyVal.str "shoe"), ("confidence", .rat 0.8),
        ("crop_path", .str "data/crops/vid/shoe_01_a.jpg"),
        ("bbox", .intList [4, 4, 56, 56])] "crop_path" =
        some (.str (CROPS_DIR ++ "/" ++ "vid" ++ "/" ++
          ("shoe" ++ "_" ++ pad2 k ++ "_" ++ pathStem f ++ ".jpg"))) := by
  have := claim9_filenames c9env "vid" c9tracked _ c9_crop_items_eval
    [("item", PyVal.str "shoe"), ("confidence", .rat 0.8),
     ("crop_path", .str "data/crops/vid/shoe_01_a.jpg"),
     ("bbox", .intList [4, 4, 56, 56])] (by simp)
  obtain ⟨k, item, f, cls, hk, hbf, hit, hcit, hcp⟩ := this
  have hcls : cls = "shoe" := by
    have h2 := (dictGet_cropdict_item "shoe" (PyVal.rat 0.8)
      (PyVal.str "data/crops/vid/shoe_01_a.jpg")
      (PyVal.intList [4, 4, 56, 56])).symm.trans hcit
    injection h2 with h3
    injection h3 with h4
    exact h4.symm
  subst hcls
  exact ⟨k, item, f, "shoe", hk, hbf, hit, hcit, hcp⟩

end CelebFashion
